import Mathlib

/-!
Shallow embedding of the Showrunner Model Gateway
(`src/services/modelGateway.ts`) together with the model-registry merge of
`src/store/showrunnerStore.ts` (`fetchModels`).

Modelling conventions:
* JavaScript strings are `List Char`; `undefined` is `Option.none`;
  JSON values are the inductive `JVal` (JSON numbers are modelled as
  integers, no claim depends on fractional values); a thrown exception is
  an `Except.error` carrying the message.
* Network effects are passed in explicitly: the single generate request is
  answered by an environment function, and the polling loop reads an
  attempt-indexed environment `Nat -> AttemptOutcome`.
-/

namespace Showrunner

/-- Character list of a string literal (JS strings are modelled as `List Char`). -/
def cs (s : String) : List Char := s.data

/-- JSON-like values exchanged with providers. -/
inductive JVal where
  | str (s : List Char)
  | num (n : Int)
  | bool (b : Bool)
  | null
  | arr (items : List JVal)
  | obj (fields : List (List Char × JVal))

mutual

/-- Boolean equality on `JVal` (hand-written: `JVal` is a nested inductive). -/
def beqJVal : JVal → JVal → Bool
  | .str a, .str b => a == b
  | .num a, .num b => a == b
  | .bool a, .bool b => a == b
  | .null, .null => true
  | .arr a, .arr b => beqJValList a b
  | .obj a, .obj b => beqJValFields a b
  | _, _ => false

/-- Boolean equality on lists of `JVal`. -/
def beqJValList : List JVal → List JVal → Bool
  | [], [] => true
  | a :: as, b :: bs => beqJVal a b && beqJValList as bs
  | _, _ => false

/-- Boolean equality on field lists of `JVal` objects. -/
def beqJValFields : List (List Char × JVal) → List (List Char × JVal) → Bool
  | [], [] => true
  | a :: as, b :: bs => (a.1 == b.1 && beqJVal a.2 b.2) && beqJValFields as bs
  | _, _ => false

end

mutual

theorem beqJVal_iff : ∀ a b : JVal, beqJVal a b = true ↔ a = b
  | .str a, .str b => by simp [beqJVal]
  | .num a, .num b => by simp [beqJVal]
  | .bool a, .bool b => by simp [beqJVal]
  | .null, .null => by simp [beqJVal]
  | .arr a, .arr b => by simp [beqJVal, beqJValList_iff a b]
  | .obj a, .obj b => by simp [beqJVal, beqJValFields_iff a b]
  | .str _, .num _ | .str _, .bool _ | .str _, .null | .str _, .arr _ | .str _, .obj _
  | .num _, .str _ | .num _, .bool _ | .num _, .null | .num _, .arr _ | .num _, .obj _
  | .bool _, .str _ | .bool _, .num _ | .bool _, .null | .bool _, .arr _ | .bool _, .obj _
  | .null, .str _ | .null, .num _ | .null, .bool _ | .null, .arr _ | .null, .obj _
  | .arr _, .str _ | .arr _, .num _ | .arr _, .bool _ | .arr _, .null | .arr _, .obj _
  | .obj _, .str _ | .obj _, .num _ | .obj _, .bool _ | .obj _, .null | .obj _, .arr _ =>
    by simp [beqJVal]

theorem beqJValList_iff : ∀ a b : List JVal, beqJValList a b = true ↔ a = b
  | [], [] => by simp [beqJValList]
  | a :: as, b :: bs => by
    simp [beqJValList, beqJVal_iff a b, beqJValList_iff as bs]
  | [], _ :: _ => by simp [beqJValList]
  | _ :: _, [] => by simp [beqJValList]

theorem beqJValFields_iff :
    ∀ a b : List (List Char × JVal), beqJValFields a b = true ↔ a = b
  | [], [] => by simp [beqJValFields]
  | a :: as, b :: bs => by
    have h2 := beqJVal_iff a.2 b.2
    have hs := beqJValFields_iff as bs
    simp [beqJValFields, h2, hs, Prod.ext_iff]
  | [], _ :: _ => by simp [beqJValFields]
  | _ :: _, [] => by simp [beqJValFields]

end

instance : DecidableEq JVal := fun a b =>
  decidable_of_iff (beqJVal a b = true) (beqJVal_iff a b)

/-- A JS `Record<string, any>` of runtime inputs, as an association list;
a key absent from the list models JS `undefined`. -/
abbrev Inputs := List (List Char × JVal)

/-- The two-character opening sequence of a `\x7b\x7bname\x7d\x7d` placeholder. -/
def openBr : List Char := ['\x7b', '\x7b']

/-- The two-character closing sequence of a placeholder. -/
def closeBr : List Char := ['\x7d', '\x7d']

/-- Models JS `s.slice(2, -2)` on the strings that reach the placeholder
branch of `constructPayload` (all of which have length at least 4). -/
def sliceKey (s : List Char) : List Char := ((s.drop 2).dropLast).dropLast

mutual

/-- Embeds `ModelGateway.constructPayload` (modelGateway.ts lines 86-104):
a string template that starts with the opening marker and ends with the
closing marker is looked up in the inputs (falling back to the literal
string when the input is undefined); any other string, and numbers,
booleans and null, are returned unchanged; arrays and objects are
transformed recursively. -/
def constructPayload : JVal → Inputs → JVal
  | .str s, inputs =>
    if openBr.isPrefixOf s && closeBr.isSuffixOf s then
      match List.lookup (sliceKey s) inputs with
      | some v => v
      | none => .str s
    else .str s
  | .arr items, inputs => .arr (constructPayloadList items inputs)
  | .obj fields, inputs => .obj (constructPayloadFields fields inputs)
  | .num n, _ => .num n
  | .bool b, _ => .bool b
  | .null, _ => .null

/-- Elementwise payload construction for array templates. -/
def constructPayloadList : List JVal → Inputs → List JVal
  | [], _ => []
  | t :: ts, inputs => constructPayload t inputs :: constructPayloadList ts inputs

/-- Valuewise payload construction for object templates. -/
def constructPayloadFields : List (List Char × JVal) → Inputs → List (List Char × JVal)
  | [], _ => []
  | kv :: fs, inputs => (kv.1, constructPayload kv.2 inputs) :: constructPayloadFields fs inputs

end

/-- Scans for a later two-character closing marker. -/
def containsClose : List Char → Bool
  | [] => false
  | c1 :: rest =>
    (match rest with
     | c2 :: _ => c1 == '\x7d' && c2 == '\x7d'
     | [] => false) || containsClose rest

/-- Whether the string contains a placeholder marker: an opening two-brace
sequence followed, anywhere later, by a closing two-brace sequence. -/
def containsMarker : List Char → Bool
  | [] => false
  | c1 :: rest =>
    (match rest with
     | c2 :: rest2 => c1 == '\x7b' && c2 == '\x7b' && containsClose rest2
     | [] => false) || containsMarker rest

mutual

/-- A template value containing no placeholder marker in any string leaf. -/
def markerFree : JVal → Bool
  | .str s => !(containsMarker s)
  | .arr items => markerFreeList items
  | .obj fields => markerFreeFields fields
  | .num _ => true
  | .bool _ => true
  | .null => true

/-- All elements marker-free. -/
def markerFreeList : List JVal → Bool
  | [] => true
  | t :: ts => markerFree t && markerFreeList ts

/-- All field values marker-free. -/
def markerFreeFields : List (List Char × JVal) → Bool
  | [] => true
  | kv :: fs => markerFree kv.2 && markerFreeFields fs

end

/-- Splits a lodash-style path expression such as `choices[0].message.content`
into its segments `["choices", "0", "message", "content"]`; the first
argument accumulates the current segment in reverse. -/
def splitPathGo : List Char → List Char → List (List Char)
  | acc, [] => if acc.isEmpty then [] else [acc.reverse]
  | acc, c :: rest =>
    if c = '.' ∨ c = '[' ∨ c = ']' then
      (if acc.isEmpty then [] else [acc.reverse]) ++ splitPathGo [] rest
    else splitPathGo (c :: acc) rest

/-- Decimal value of a digit string. -/
def digitsToNat (s : List Char) : Nat :=
  s.foldl (fun n c => n * 10 + (c.toNat - '0'.toNat)) 0

/-- A path segment usable as an array index: a nonempty all-digit string. -/
def parseIndex (s : List Char) : Option Nat :=
  if s ≠ [] ∧ s.all (·.isDigit) then some (digitsToNat s) else none

/-- Walks a parsed path through a `JVal`, returning `none` (JS `undefined`)
when any intermediate segment is missing. -/
def resolveSegs : JVal → List (List Char) → Option JVal
  | v, [] => some v
  | .obj fields, k :: rest =>
    match List.lookup k fields with
    | some v => resolveSegs v rest
    | none => none
  | .arr items, k :: rest =>
    match parseIndex k with
    | some i =>
      match items.get? i with
      | some v => resolveSegs v rest
      | none => none
    | none => none
  | _, _ :: _ => none

/-- Embeds `resolvePath` of modelGateway.ts (lodash `get`): resolves a
dotted-and-indexed path expression against a JSON value.  Modelled for
well-formed paths (the only ones the repository uses). -/
def resolvePath (obj : JVal) (path : List Char) : Option JVal :=
  resolveSegs obj (splitPathGo [] path)

/-- Embeds the `APIEndpointDefinition` shape of `types.ts` as used by the
gateway: absent `headers` and `outputMapping` are modelled by empty lists
(behaviourally identical, since both are only read by lookup/iteration). -/
structure APIEndpointDefinition where
  url : List Char
  method : List Char
  headers : List (List Char × List Char)
  paramMapping : JVal
  outputMapping : List (List Char × List Char)
deriving DecidableEq

/-- The `endpoints` field of a model config: `generate` is required,
`status` present only for asynchronous/polling providers. -/
structure ModelEndpoints where
  generate : APIEndpointDefinition
  status : Option APIEndpointDefinition
deriving DecidableEq

/-- Embeds the `AIModelConfig` shape of `types.ts` as used by the gateway
and the store. -/
structure AIModelConfig where
  id : List Char
  name : List Char
  provider : List Char
  family : List Char
  contextWindow : Nat
  isDefault : Bool := false
  endpoints : Option ModelEndpoints := none
deriving DecidableEq

/-- The hardcoded `ModelGateway.LOCAL_FALLBACK_MODELS` list
(modelGateway.ts lines 13-50). -/
def LOCAL_FALLBACK_MODELS : List AIModelConfig :=
  [ { id := cs "gemini-2.5-flash", name := cs "Gemini 2.5 Flash",
      provider := cs "google_native", family := cs "text",
      contextWindow := 1000000, isDefault := true },
    { id := cs "gemini-3-pro-preview", name := cs "Gemini 3.0 Pro",
      provider := cs "google_native", family := cs "text",
      contextWindow := 2000000 },
    { id := cs "gemini-2.5-flash-image", name := cs "Gemini 2.5 Flash (Image)",
      provider := cs "google_native", family := cs "image",
      contextWindow := 0 },
    { id := cs "gemini-3-pro-image-preview", name := cs "Gemini 3.0 Pro (Image)",
      provider := cs "google_native", family := cs "image",
      contextWindow := 0 },
    { id := cs "veo-3.1", name := cs "Veo 3.1 (Video)",
      provider := cs "google_native", family := cs "video",
      contextWindow := 0 } ]

/-- Outcome of the remote model-list fetch, as observed by
`fetchRemoteDefinitions`: either the fetch (or the body parse) threw, or an
HTTP response arrived whose `models` field either is an array of model
configs (`some ms`) or is not an array (`none`). -/
inductive FetchOutcome where
  | threw
  | resp (ok : Bool) (modelsField : Option (List AIModelConfig))
deriving DecidableEq

/-- Embeds `ModelGateway.fetchRemoteDefinitions` (modelGateway.ts lines
56-79).  The function is total: every outcome resolves to a list, which is
the no-throw contract of the source's try/catch. -/
def fetchRemoteDefinitions : FetchOutcome → List AIModelConfig
  | .threw => LOCAL_FALLBACK_MODELS
  | .resp ok modelsField =>
    if !ok then LOCAL_FALLBACK_MODELS
    else
      match modelsField with
      | some ms => ms
      | none => LOCAL_FALLBACK_MODELS

/-- One step of the store's merge loop (showrunnerStore.ts lines 1299-1306):
`findIndex` on the accumulated list by id, then replace in place or push. -/
def mergeCustomModel (acc : List AIModelConfig) (custom : AIModelConfig) :
    List AIModelConfig :=
  match acc.findIdx? (fun m => m.id == custom.id) with
  | some i => acc.set i custom
  | none => acc ++ [custom]

/-- Embeds the merge performed by `fetchModels` (showrunnerStore.ts lines
1290-1309): fold the custom list over the remote (or fallback) list. -/
def fetchModels (remoteModels customModels : List AIModelConfig) :
    List AIModelConfig :=
  customModels.foldl mergeCustomModel remoteModels

/-- Specification-side view of the merge: the entry a remote model is
replaced by, namely the custom entry with its id when one exists. -/
def overrideBy (customModels : List AIModelConfig) (m : AIModelConfig) :
    AIModelConfig :=
  (customModels.find? (fun c => c.id == m.id)).getD m

/-- Specification-side view of the merge: the custom entries whose ids are
fresh with respect to the remote list, in custom-list order. -/
def freshCustoms (customModels remoteModels : List AIModelConfig) :
    List AIModelConfig :=
  customModels.filter (fun c => !(remoteModels.any (fun m => m.id == c.id)))

/-- Example registry entry with id m1. -/
def sampleM1 : AIModelConfig :=
  { id := cs "m1", name := cs "one", provider := cs "p", family := cs "text",
    contextWindow := 0 }

/-- Example registry entry with id m2. -/
def sampleM2 : AIModelConfig :=
  { id := cs "m2", name := cs "two", provider := cs "p", family := cs "text",
    contextWindow := 0 }

/-- Example custom entry overriding id m2. -/
def sampleM2Override : AIModelConfig :=
  { id := cs "m2", name := cs "override", provider := cs "p", family := cs "text",
    contextWindow := 0 }

/-- Example custom entry with the fresh id m3. -/
def sampleM3 : AIModelConfig :=
  { id := cs "m3", name := cs "three", provider := cs "p", family := cs "text",
    contextWindow := 0 }

/-!
JS replacement-pattern expansion for `String.prototype.replace` with a
string pattern: the dollar escapes for a literal dollar, the matched
substring, the preceding portion and the following portion; any other
dollar sequence stays literal (a string pattern has no capture groups).
-/

mutual

/-- Main scan of the replacement string: a dollar defers to the escape
handler, any other character is copied. -/
def substDollar (matched before after : List Char) : List Char → List Char
  | [] => []
  | c :: rest =>
    if c = '\x24' then substDollarEsc matched before after rest
    else c :: substDollar matched before after rest

/-- The character following a dollar selects the expansion; an
unrecognized sequence stays literal. -/
def substDollarEsc (matched before after : List Char) : List Char → List Char
  | [] => ['\x24']
  | d :: rest2 =>
    if d = '\x24' then '\x24' :: substDollar matched before after rest2
    else if d = '&' then matched ++ substDollar matched before after rest2
    else if d = '\x60' then before ++ substDollar matched before after rest2
    else if d = '\x27' then after ++ substDollar matched before after rest2
    else '\x24' :: d :: substDollar matched before after rest2

end

/-- Scanner for `replaceFirst`: `seen` is the already-scanned prefix in
reverse; at the first position where `pat` matches, the replacement is
expanded and the remainder is kept verbatim. -/
def replaceFirstGo (pat rep : List Char) : List Char → List Char → List Char
  | seen, [] =>
    if pat.isEmpty then seen.reverse ++ substDollar pat seen.reverse [] rep
    else seen.reverse
  | seen, c :: rest =>
    if pat.isPrefixOf (c :: rest) then
      seen.reverse ++ substDollar pat seen.reverse ((c :: rest).drop pat.length) rep
        ++ (c :: rest).drop pat.length
    else replaceFirstGo pat rep (c :: seen) rest

/-- JS `s.replace(pat, rep)` with a string pattern: replaces only the
first occurrence of `pat`. -/
def replaceFirst (s pat rep : List Char) : List Char :=
  replaceFirstGo pat rep [] s

/-- The literal `\x7b\x7bkey\x7d\x7d` credential token of header templates. -/
def keyToken : List Char := cs "\x7b\x7bkey\x7d\x7d"

/-- Embeds one header value of `executeGenericRequest` step 3
(modelGateway.ts lines 136-142) and of `pollForCompletion` (lines 184-189):
`value.replace(keyToken, apiKey || '')`; a missing credential substitutes
the empty string. -/
def resolveHeaderValue (value : List Char) (apiKey : Option (List Char)) :
    List Char :=
  replaceFirst value keyToken (apiKey.getD [])

/-- Embeds the header map resolution of `executeGenericRequest`. -/
def resolveHeaders (headers : List (List Char × List Char))
    (apiKey : Option (List Char)) : List (List Char × List Char) :=
  headers.map (fun kv => (kv.1, resolveHeaderValue kv.2 apiKey))

/-- Decimal digits of a natural number. -/
def natToChars (n : Nat) : List Char := cs (toString n)

/-- Decimal rendering of an integer. -/
def intToChars (n : Int) : List Char := cs (toString n)

mutual

/-- JS `String(v)` on a JSON value, used when substituting URL tokens. -/
def jsToString : JVal → List Char
  | .str s => s
  | .num n => intToChars n
  | .bool b => if b then cs "true" else cs "false"
  | .null => cs "null"
  | .arr items => jsToStringArr items
  | .obj _ => cs "[object Object]"

/-- JS array stringification: elements joined with commas, null elements
rendered empty. -/
def jsToStringArr : List JVal → List Char
  | [] => []
  | [.null] => []
  | [v] => jsToString v
  | .null :: rest => ',' :: jsToStringArr rest
  | v :: rest => jsToString v ++ ',' :: jsToStringArr rest

end

/-- A regex word character, as in the URL template token pattern. -/
def isWordChar (c : Char) : Bool := c.isAlphanum || c = '_'

/-- Embeds the URL template resolution of `executeGenericRequest` step 2
(modelGateway.ts lines 127-133): every embedded token of word characters
between the two-brace markers is substituted with the matching request
input, or with the credential when the token is the literal `key` and a
credential is stored, and is otherwise left unexpanded. -/
def resolveUrlGo (inputs : Inputs) (apiKey : Option (List Char)) :
    List Char → List Char
  | [] => []
  | '\x7b' :: '\x7b' :: rest =>
    let w := rest.takeWhile isWordChar
    if !w.isEmpty && closeBr.isPrefixOf (rest.drop w.length) then
      (match List.lookup w inputs with
       | some v => jsToString v
       | none =>
         match apiKey with
         | some k => if w = cs "key" && !k.isEmpty then k else openBr ++ w ++ closeBr
         | none => openBr ++ w ++ closeBr) ++
      resolveUrlGo inputs apiKey ((rest.drop w.length).drop 2)
    else '\x7b' :: resolveUrlGo inputs apiKey ('\x7b' :: rest)
  | c :: rest => c :: resolveUrlGo inputs apiKey rest
termination_by s => s.length
decreasing_by
  all_goals simp [List.length_drop]
  all_goals omega

/-- The resolved URL of the generate endpoint. -/
def resolveUrl (url : List Char) (inputs : Inputs) (apiKey : Option (List Char)) :
    List Char :=
  resolveUrlGo inputs apiKey url

/-- What one status-poll attempt yields from the network: a non-success
HTTP response, or a success response with a parsed JSON body. -/
inductive AttemptOutcome where
  | httpFail
  | ok (body : JVal)
deriving DecidableEq

/-- Result of the polling loop, instrumented with the number of status
attempts consumed and the milliseconds of interval sleeps elapsed. -/
inductive PollOutcome where
  | success (body : JVal) (attempts : Nat) (elapsedMs : Nat)
  | genFailed (rawStatus : List Char) (attempts : Nat) (elapsedMs : Nat)
  | jsError (attempts : Nat) (elapsedMs : Nat)
  | timeout (attempts : Nat) (elapsedMs : Nat)
  | taskIdError
deriving DecidableEq

/-- `POLLING_INTERVAL` of modelGateway.ts line 193. -/
def POLLING_INTERVAL : Nat := 2000

/-- `MAX_ATTEMPTS` of modelGateway.ts line 194. -/
def MAX_ATTEMPTS : Nat := 60

/-- The success terminal statuses of modelGateway.ts line 213. -/
def successStatuses : List (List Char) :=
  [cs "succeeded", cs "completed", cs "done", cs "success"]

/-- The failure terminal statuses of modelGateway.ts line 217. -/
def failureStatuses : List (List Char) := [cs "failed", cs "error"]

/-- JS `toLowerCase` on the ASCII statuses the gateway compares. -/
def lowerChars (s : List Char) : List Char := s.map Char.toLower

/-- JS `v || d` on an optional path string: the default replaces both a
missing and an empty configured path. -/
def jsOrDefault (v : Option (List Char)) (d : List Char) : List Char :=
  match v with
  | some s => if s.isEmpty then d else s
  | none => d

/-- The status path of the status endpoint (line 209):
`outputMapping['status'] || 'status'`. -/
def statusPathOf (st : APIEndpointDefinition) : List Char :=
  jsOrDefault (List.lookup (cs "status") st.outputMapping) (cs "status")

/-- The polling loop of modelGateway.ts lines 196-220: each iteration first
sleeps the interval, then reads the attempt outcome; a non-success response
continues; an extracted status string is compared (lowercased) against the
success set, then the failure set; an undefined or null extracted status
short-circuits the optional-chaining `toLowerCase`, is in neither terminal
set, and the loop continues; an extracted truthy non-string status would
make the JS `toLowerCase` call throw. -/
def pollLoop (env : Nat → AttemptOutcome) (statusPath : List Char) :
    Nat → Nat → Nat → PollOutcome
  | i, 0, t => .timeout i t
  | i, fuel + 1, t =>
    let t' := t + POLLING_INTERVAL
    match env i with
    | .httpFail => pollLoop env statusPath (i + 1) fuel t'
    | .ok body =>
      match resolvePath body statusPath with
      | none => pollLoop env statusPath (i + 1) fuel t'
      | some .null => pollLoop env statusPath (i + 1) fuel t'
      | some (.str s) =>
        if successStatuses.contains (lowerChars s) then .success body (i + 1) t'
        else if failureStatuses.contains (lowerChars s) then .genFailed s (i + 1) t'
        else pollLoop env statusPath (i + 1) fuel t'
      | some _ => .jsError (i + 1) t'

/-- The polling loop started with the full attempt budget and zero elapsed
time. -/
def pollPhase (env : Nat → AttemptOutcome) (statusPath : List Char) :
    PollOutcome :=
  pollLoop env statusPath 0 MAX_ATTEMPTS 0

/-- Number of status attempts a poll outcome consumed. -/
def attemptsOf : PollOutcome → Nat
  | .success _ a _ => a
  | .genFailed _ a _ => a
  | .jsError a _ => a
  | .timeout a _ => a
  | .taskIdError => 0

/-- Milliseconds of interval sleeps a poll outcome waited. -/
def elapsedOf : PollOutcome → Nat
  | .success _ _ t => t
  | .genFailed _ _ t => t
  | .jsError _ t => t
  | .timeout _ t => t
  | .taskIdError => 0

/-- Whether one attempt outcome keeps the polling loop going: a non-success
HTTP response, an undefined or null extracted status (both short-circuit
the optional-chaining `toLowerCase` to undefined), or a status string
outside both terminal sets. -/
def attemptContinues (statusPath : List Char) : AttemptOutcome → Bool
  | .httpFail => true
  | .ok body =>
    match resolvePath body statusPath with
    | none => true
    | some .null => true
    | some (.str s) =>
      !(successStatuses.contains (lowerChars s)) &&
        !(failureStatuses.contains (lowerChars s))
    | some _ => false

/-- A status response body carrying the given status string. -/
def statusBody (st : List Char) : JVal := .obj [(cs "status", .str st)]

/-- An environment whose every poll reports the failed status. -/
def envAllFailed : Nat → AttemptOutcome :=
  fun _ => .ok (statusBody (cs "failed"))

/-- An environment reporting pending, pending, then succeeded. -/
def envPendingThenSucceeded : Nat → AttemptOutcome :=
  fun i => if i < 2 then .ok (statusBody (cs "pending"))
           else .ok (statusBody (cs "succeeded"))

/-- An environment whose every poll carries a null status field: the
source's optional-chaining lowercase short-circuits on null, so such a
run keeps polling. -/
def envNullStatus : Nat → AttemptOutcome :=
  fun _ => .ok (.obj [(cs "status", .null)])

/-- JS falsiness of a possibly-undefined JSON value. -/
def jsFalsyOpt : Option JVal → Bool
  | none => true
  | some (.str s) => s.isEmpty
  | some (.num n) => n == 0
  | some (.bool b) => !b
  | some .null => true
  | some _ => false

/-- The task-id path (line 178): `generate.outputMapping['id'] || 'id'`. -/
def taskIdPathOf (eps : ModelEndpoints) : List Char :=
  jsOrDefault (List.lookup (cs "id") eps.generate.outputMapping) (cs "id")

/-- Embeds `pollForCompletion` (modelGateway.ts lines 173-223): extracts
the task id from the initial response (a falsy value is a fatal error),
then runs the polling loop.  The status request's URL and headers are
request-side data absorbed by the attempt environment `env`. -/
def pollForCompletion (eps : ModelEndpoints) (st : APIEndpointDefinition)
    (initialResponse : JVal) (env : Nat → AttemptOutcome) : PollOutcome :=
  let taskId := resolvePath initialResponse (taskIdPathOf eps)
  if jsFalsyOpt taskId then .taskIdError
  else pollPhase env (statusPathOf st)

/-- The resolved generate request handed to `fetch`. -/
structure GenRequest where
  url : List Char
  method : List Char
  headers : List (List Char × List Char)
  body : JVal

/-- What the generate `fetch` yields: a rejected promise (network error),
or a response with its ok flag, status code, body text and parsed body. -/
inductive GenHttpOutcome where
  | networkError (msg : List Char)
  | resp (ok : Bool) (status : Nat) (bodyText : List Char) (body : JVal)

/-- JS `{ ...inputs, id: config.id }`: under first-match association-list
lookup, prepending the id binding overrides any id key of `inputs` and
leaves every other key unchanged. -/
def requestInputsOf (config : AIModelConfig) (inputs : Inputs) : Inputs :=
  (cs "id", .str config.id) :: inputs

/-- Embeds `executeGenericRequest` (modelGateway.ts lines 109-168): checks
the generate endpoint, builds body, URL and headers, issues the request
through `net`, treats a non-success response as a provider error, and
either polls for completion or returns the parsed body synchronously. -/
def executeGenericRequest (config : AIModelConfig) (inputs : Inputs)
    (apiKey : Option (List Char)) (net : GenRequest → GenHttpOutcome)
    (pollEnv : Nat → AttemptOutcome) : Except (List Char) JVal :=
  match config.endpoints with
  | none => .error (cs "No generation endpoint defined for model " ++ config.name)
  | some eps =>
    let endpoint := eps.generate
    let requestInputs := requestInputsOf config inputs
    let body := constructPayload endpoint.paramMapping requestInputs
    let finalUrl := resolveUrl endpoint.url requestInputs apiKey
    let headers := resolveHeaders endpoint.headers apiKey
    match net { url := finalUrl, method := endpoint.method,
                headers := headers, body := body } with
    | .networkError m => .error m
    | .resp ok status bodyText data =>
      if !ok then
        .error (cs "Provider Error (" ++ natToChars status ++ cs "): " ++ bodyText)
      else
        match eps.status with
        | some st =>
          match pollForCompletion eps st data pollEnv with
          | .success final _ _ => .ok final
          | .genFailed raw _ _ => .error (cs "Generation failed with status: " ++ raw)
          | .jsError _ _ => .error (cs "TypeError")
          | .timeout _ _ => .error (cs "Generation timed out.")
          | .taskIdError =>
            .error (cs "Could not extract Task ID from initial response for polling.")
        | none => .ok data

/-- The text extraction path (line 248):
`generate.outputMapping['text'] || 'text'`. -/
def textPathOf (config : AIModelConfig) : List Char :=
  match config.endpoints with
  | some eps => jsOrDefault (List.lookup (cs "text") eps.generate.outputMapping) (cs "text")
  | none => cs "text"

/-- The user-facing wrapper of generic-path errors (lines 255 and 306). -/
def wrapModelError (name msg : List Char) : List Char :=
  '[' :: name ++ cs "] Error: " ++ msg

/-- Embeds the generic branch of `generateText` (modelGateway.ts lines
228-258).  `none` models the `google_native` delegation to the native SDK
(an external collaborator outside this embedding). -/
def generateText (config : AIModelConfig) (prompt : List Char)
    (apiKey : Option (List Char)) (net : GenRequest → GenHttpOutcome)
    (pollEnv : Nat → AttemptOutcome) :
    Option (Except (List Char) (List Char)) :=
  if config.provider == cs "google_native" then none
  else
    let inner : Except (List Char) (List Char) :=
      match executeGenericRequest config [(cs "prompt", .str prompt)] apiKey net pollEnv with
      | .error m => .error m
      | .ok rawResponse =>
        match resolvePath rawResponse (textPathOf config) with
        | some (.str s) => .ok s
        | _ => .error (cs "Could not extract text from provider response.")
    some (match inner with
          | .error m => .error (wrapModelError config.name m)
          | .ok s => .ok s)

/-- The base64 alphabet. -/
def base64Table : List Char :=
  cs "ABCDEFGHIJKLMNOPQRSTUVWXYZabcdefghijklmnopqrstuvwxyz0123456789+/"

/-- Character of one 6-bit group. -/
def b64Char (n : Nat) : Char := (base64Table.get? n).getD 'A'

/-- Standard base64 with padding, as produced by the `FileReader` data-URL
re-encoding of a fetched image blob. -/
def base64Encode : List UInt8 → List Char
  | [] => []
  | [b1] => [b64Char (b1.toNat / 4), b64Char (b1.toNat % 4 * 16), '=', '=']
  | [b1, b2] =>
    [b64Char (b1.toNat / 4), b64Char (b1.toNat % 4 * 16 + b2.toNat / 16),
     b64Char (b2.toNat % 16 * 4), '=']
  | b1 :: b2 :: b3 :: rest =>
    b64Char (b1.toNat / 4) :: b64Char (b1.toNat % 4 * 16 + b2.toNat / 16) ::
    b64Char (b2.toNat % 16 * 4 + b3.toNat / 64) :: b64Char (b3.toNat % 64) ::
    base64Encode rest

/-- The image extraction path (lines 276-277): the status endpoint's
mapping when polling is configured, else the generate endpoint's mapping;
`outputMapping['image'] || 'image_url'`. -/
def imagePathOf (config : AIModelConfig) : List Char :=
  match config.endpoints with
  | some eps =>
    let ep := match eps.status with
              | some st => st
              | none => eps.generate
    jsOrDefault (List.lookup (cs "image") ep.outputMapping) (cs "image_url")
  | none => cs "image_url"

/-- The extraction failure message of modelGateway.ts line 281. -/
def extractImageMsg : List Char :=
  cs "Could not extract image URL from provider response."

/-- Embeds the visual-result normalization of `generateVisual`
(modelGateway.ts lines 279-303).  A falsy extracted value is a fatal
extraction error; a string starting with `http` is fetched (`imgFetch`
models the fetch plus `FileReader` read, `none` being a rejected fetch) and
re-encoded; a string starting with `data:image` yields the piece after the
first comma of the JS `split(',')` (which is `undefined`, modelled `none`,
when there is no comma); any other string is passed through; a truthy
non-string would make the JS `startsWith` call throw. -/
def normalizeVisualValue (imgFetch : List Char → Option (List UInt8))
    (v : Option JVal) : Except (List Char) (Option (List Char)) :=
  if jsFalsyOpt v then .error extractImageMsg
  else
    match v with
    | some (.str s) =>
      if (cs "http").isPrefixOf s then
        match imgFetch s with
        | some bytes => .ok (some (base64Encode bytes))
        | none => .error (cs "Failed to fetch")
      else if (cs "data:image").isPrefixOf s then
        .ok ((s.splitOn ',').get? 1)
      else .ok (some s)
    | _ => .error (cs "imageUrl.startsWith is not a function")

/-- Embeds the generic branch of `generateVisual` (modelGateway.ts lines
263-309).  `none` models the `google_native` delegation; the inner
`Except`'s success value is `Option` because the data-URI branch of the
source can resolve the promise with JS `undefined`. -/
def generateVisual (config : AIModelConfig) (prompt : List Char)
    (apiKey : Option (List Char)) (net : GenRequest → GenHttpOutcome)
    (pollEnv : Nat → AttemptOutcome)
    (imgFetch : List Char → Option (List UInt8)) :
    Option (Except (List Char) (Option (List Char))) :=
  if config.provider == cs "google_native" then none
  else
    let inner : Except (List Char) (Option (List Char)) :=
      match executeGenericRequest config [(cs "prompt", .str prompt)] apiKey net pollEnv with
      | .error m => .error m
      | .ok rawResponse =>
        normalizeVisualValue imgFetch (resolvePath rawResponse (imagePathOf config))
    some (match inner with
          | .error m => .error (wrapModelError config.name m)
          | .ok r => .ok r)

/-- A synchronous generic text provider whose text lives at
`choices[0].message.content` (the spec's end-to-end scenario). -/
def mockTextModel : AIModelConfig :=
  { id := cs "mock-1", name := cs "Mock", provider := cs "generic",
    family := cs "text", contextWindow := 0,
    endpoints := some
      { generate :=
          { url := cs "https://api.mock/v1/generate", method := cs "POST",
            headers := [],
            paramMapping := .obj [(cs "prompt", .str (cs "\x7b\x7bprompt\x7d\x7d"))],
            outputMapping := [(cs "text", cs "choices[0].message.content")] },
        status := none } }

/-- The mock provider response of the end-to-end scenario. -/
def mockTextResponse : JVal :=
  .obj [(cs "choices",
    .arr [.obj [(cs "message", .obj [(cs "content", .str (cs "Hello"))])]])]

/-- A synchronous generic visual provider using the default image path. -/
def mockVisualModel : AIModelConfig :=
  { id := cs "mock-vis", name := cs "MockVis", provider := cs "generic",
    family := cs "image", contextWindow := 0,
    endpoints := some
      { generate :=
          { url := cs "https://api.mock/v1/images", method := cs "POST",
            headers := [],
            paramMapping := .obj [(cs "prompt", .str (cs "\x7b\x7bprompt\x7d\x7d"))],
            outputMapping := [] },
        status := none } }

/-! ## Generic helper lemmas -/

instance {ε α : Type} [DecidableEq ε] [DecidableEq α] : DecidableEq (Except ε α) :=
  fun x y =>
    match x, y with
    | .ok a, .ok b =>
      if h : a = b then .isTrue (by rw [h]) else .isFalse (by simp [h])
    | .error a, .error b =>
      if h : a = b then .isTrue (by rw [h]) else .isFalse (by simp [h])
    | .ok _, .error _ => .isFalse (by simp)
    | .error _, .ok _ => .isFalse (by simp)

theorem isPrefixOf_true_iff {α : Type} [BEq α] [LawfulBEq α] :
    ∀ (l₁ l₂ : List α), l₁.isPrefixOf l₂ = true ↔ l₁ <+: l₂
  | [], l₂ => by simp
  | a :: as, [] => by simp
  | a :: as, b :: bs => by
    rw [List.isPrefixOf_cons₂]
    simp [List.cons_prefix_cons, isPrefixOf_true_iff as bs]

theorem isSuffixOf_true_iff {α : Type} [BEq α] [LawfulBEq α] (l₁ l₂ : List α) :
    l₁.isSuffixOf l₂ = true ↔ l₁ <:+ l₂ := by
  rw [List.isSuffixOf, isPrefixOf_true_iff]
  exact List.reverse_prefix

/-- A string passes the placeholder guard of `constructPayload` exactly when
it is the two-brace opening marker, a name, and the two-brace closing
marker. -/
theorem marker_guard_iff (s : List Char) :
    (openBr.isPrefixOf s && closeBr.isSuffixOf s) = true ↔
      ∃ name, s = openBr ++ name ++ closeBr := by
  constructor
  · intro h
    rw [Bool.and_eq_true, isPrefixOf_true_iff, isSuffixOf_true_iff] at h
    obtain ⟨⟨t, ht⟩, ⟨u, hu⟩⟩ := h
    rcases u with _ | ⟨c1, u⟩
    · rw [← hu] at ht
      simp [openBr, closeBr] at ht
    · rcases u with _ | ⟨c2, u⟩
      · rw [← hu] at ht
        simp [openBr, closeBr] at ht
      · rw [← hu] at ht
        simp only [openBr, closeBr, List.cons_append, List.nil_append,
          List.cons.injEq] at ht
        obtain ⟨h1, h2, h3⟩ := ht
        refine ⟨u, ?_⟩
        rw [← hu, ← h1, ← h2]
        simp [openBr, closeBr]
  · rintro ⟨name, rfl⟩
    rw [Bool.and_eq_true, isPrefixOf_true_iff, isSuffixOf_true_iff]
    constructor
    · exact ⟨name ++ closeBr, by simp⟩
    · exact ⟨openBr ++ name, by simp⟩

/-- `sliceKey` recovers the name from a whole-string placeholder. -/
theorem sliceKey_marker (name : List Char) :
    sliceKey (openBr ++ name ++ closeBr) = name := by
  have h : (openBr ++ name ++ closeBr).drop 2 = (name ++ ['\x7d']) ++ ['\x7d'] := by
    simp [openBr, closeBr]
  rw [sliceKey, h, List.dropLast_concat, List.dropLast_concat]

theorem constructPayloadList_eq_map (l : List JVal) (inputs : Inputs) :
    constructPayloadList l inputs = l.map (fun t => constructPayload t inputs) := by
  induction l with
  | nil => rfl
  | cons t ts ih => rw [constructPayloadList, List.map_cons, ih]

theorem constructPayloadFields_eq_map (fs : List (List Char × JVal)) (inputs : Inputs) :
    constructPayloadFields fs inputs =
      fs.map (fun kv => (kv.1, constructPayload kv.2 inputs)) := by
  induction fs with
  | nil => rfl
  | cons kv fs ih => rw [constructPayloadFields, List.map_cons, ih]

/-- Whole-string placeholder substitution, spelled out. -/
theorem constructPayload_marker (name : List Char) (inputs : Inputs) :
    constructPayload (.str (openBr ++ name ++ closeBr)) inputs =
      (List.lookup name inputs).getD (.str (openBr ++ name ++ closeBr)) := by
  have hg : (openBr.isPrefixOf (openBr ++ name ++ closeBr) &&
      closeBr.isSuffixOf (openBr ++ name ++ closeBr)) = true :=
    (marker_guard_iff _).mpr ⟨name, rfl⟩
  rw [constructPayload, if_pos hg, sliceKey_marker]
  cases List.lookup name inputs <;> rfl

/-- Non-placeholder strings are returned verbatim. -/
theorem constructPayload_verbatim (s : List Char) (inputs : Inputs)
    (h : ∀ name, s ≠ openBr ++ name ++ closeBr) :
    constructPayload (.str s) inputs = .str s := by
  have hg : (openBr.isPrefixOf s && closeBr.isSuffixOf s) ≠ true := by
    intro hx
    obtain ⟨name, hname⟩ := (marker_guard_iff s).mp hx
    exact h name hname
  rw [constructPayload, if_neg hg]

theorem containsClose_append_close (k : List Char) :
    containsClose (k ++ closeBr) = true := by
  induction k with
  | nil => rfl
  | cons c k ih =>
    rw [List.cons_append]
    simp [containsClose, ih]

/-- A whole-string placeholder is in particular a contained marker. -/
theorem containsMarker_marker (k : List Char) :
    containsMarker (openBr ++ k ++ closeBr) = true := by
  have h : openBr ++ k ++ closeBr = '\x7b' :: '\x7b' :: (k ++ closeBr) := by
    simp [openBr, closeBr]
  rw [h, containsMarker]
  simp [containsClose_append_close k]

mutual

theorem constructPayload_id :
    ∀ (t : JVal) (inputs : Inputs), markerFree t = true →
      constructPayload t inputs = t
  | .str s, inputs => by
    intro h
    rw [markerFree, Bool.not_eq_true'] at h
    apply constructPayload_verbatim
    intro name hname
    rw [hname, containsMarker_marker] at h
    exact Bool.true_eq_false ▸ h
  | .arr items, inputs => by
    intro h
    rw [markerFree] at h
    rw [constructPayload, constructPayloadList_id items inputs h]
  | .obj fields, inputs => by
    intro h
    rw [markerFree] at h
    rw [constructPayload, constructPayloadFields_id fields inputs h]
  | .num n, _ => by intro _; rfl
  | .bool b, _ => by intro _; rfl
  | .null, _ => by intro _; rfl

theorem constructPayloadList_id :
    ∀ (ts : List JVal) (inputs : Inputs), markerFreeList ts = true →
      constructPayloadList ts inputs = ts
  | [], _ => by intro _; rfl
  | t :: ts, inputs => by
    intro h
    rw [markerFreeList, Bool.and_eq_true] at h
    rw [constructPayloadList, constructPayload_id t inputs h.1,
      constructPayloadList_id ts inputs h.2]

theorem constructPayloadFields_id :
    ∀ (fs : List (List Char × JVal)) (inputs : Inputs), markerFreeFields fs = true →
      constructPayloadFields fs inputs = fs
  | [], _ => by intro _; rfl
  | kv :: fs, inputs => by
    intro h
    rw [markerFreeFields, Bool.and_eq_true] at h
    rw [constructPayloadFields, constructPayload_id kv.2 inputs h.1,
      constructPayloadFields_id fs inputs h.2]

end

/-! ## Claim theorems -/

/-- Claim C1: for every outcome of the remote model-list fetch that is a
thrown error, a non-success HTTP status, or a body whose models field is
not an array, `fetchRemoteDefinitions` raises nothing (it is a total
function into lists) and resolves to exactly the hardcoded built-in
fallback list. -/
theorem claim_C1_fetch_fallback :
    ∀ (o : FetchOutcome),
      (o = .threw ∨ (∃ mf, o = .resp false mf) ∨ (∃ ok, o = .resp ok none)) →
      fetchRemoteDefinitions o = LOCAL_FALLBACK_MODELS := by
  rintro o (rfl | ⟨mf, rfl⟩ | ⟨ok, rfl⟩)
  · rfl
  · rfl
  · cases ok <;> rfl

/-- Witness for C1 at the concrete outcome of an HTTP 500 response that
even carries a well-formed models array. -/
theorem claim_C1_witness :
    ((FetchOutcome.resp false (some LOCAL_FALLBACK_MODELS)) = .threw ∨
      (∃ mf, FetchOutcome.resp false (some LOCAL_FALLBACK_MODELS) = .resp false mf) ∨
      (∃ ok, FetchOutcome.resp false (some LOCAL_FALLBACK_MODELS) = .resp ok none)) ∧
    fetchRemoteDefinitions (.resp false (some LOCAL_FALLBACK_MODELS)) =
      LOCAL_FALLBACK_MODELS :=
  ⟨Or.inr (Or.inl ⟨some LOCAL_FALLBACK_MODELS, rfl⟩),
   claim_C1_fetch_fallback _ (Or.inr (Or.inl ⟨some LOCAL_FALLBACK_MODELS, rfl⟩))⟩

/-- Claim C2: the payload constructor substitutes a whole-string
placeholder by the defined input and keeps the literal template when the
input is undefined; returns any other string verbatim; maps arrays
elementwise in order; maps object values recursively with keys kept;
returns numbers, booleans and null unchanged; and is the identity on
every template containing no placeholder marker. -/
theorem claim_C2_constructPayload_spec :
    (∀ (name : List Char) (inputs : Inputs),
        constructPayload (.str (openBr ++ name ++ closeBr)) inputs =
          (List.lookup name inputs).getD (.str (openBr ++ name ++ closeBr))) ∧
    (∀ (s : List Char) (inputs : Inputs),
        (∀ name, s ≠ openBr ++ name ++ closeBr) →
        constructPayload (.str s) inputs = .str s) ∧
    (∀ (items : List JVal) (inputs : Inputs),
        constructPayload (.arr items) inputs =
          .arr (items.map (fun t => constructPayload t inputs))) ∧
    (∀ (fields : List (List Char × JVal)) (inputs : Inputs),
        constructPayload (.obj fields) inputs =
          .obj (fields.map (fun kv => (kv.1, constructPayload kv.2 inputs)))) ∧
    (∀ (n : Int) (b : Bool) (inputs : Inputs),
        constructPayload (.num n) inputs = .num n ∧
        constructPayload (.bool b) inputs = .bool b ∧
        constructPayload .null inputs = .null) ∧
    (∀ (t : JVal) (inputs : Inputs), markerFree t = true →
        constructPayload t inputs = t) := by
  refine ⟨constructPayload_marker, constructPayload_verbatim, ?_, ?_, ?_,
    constructPayload_id⟩
  · intro items inputs
    rw [constructPayload, constructPayloadList_eq_map]
  · intro fields inputs
    rw [constructPayload, constructPayloadFields_eq_map]
  · intro n b inputs
    exact ⟨rfl, rfl, rfl⟩

/-- Witness for C2: a defined placeholder substitutes, an embedded marker
inside a longer string does not, and a marker-free object template is
returned identically. -/
theorem claim_C2_witness :
    constructPayload (.str (openBr ++ cs "x" ++ closeBr)) [(cs "x", .num 7)] = .num 7 ∧
    constructPayload (.str (cs "hello \x7b\x7bx\x7d\x7d")) [(cs "x", .num 7)] =
      .str (cs "hello \x7b\x7bx\x7d\x7d") ∧
    markerFree (.obj [(cs "a", .num 1)]) = true ∧
    constructPayload (.obj [(cs "a", .num 1)]) [(cs "a", .num 5)] =
      .obj [(cs "a", .num 1)] := by
  refine ⟨?_, ?_, by decide, ?_⟩
  · have h := claim_C2_constructPayload_spec.1 (cs "x") [(cs "x", .num 7)]
    rw [h]
    decide
  · apply claim_C2_constructPayload_spec.2.1
    intro name hname
    exact absurd ((marker_guard_iff _).mpr ⟨name, hname⟩) (by decide)
  · exact claim_C2_constructPayload_spec.2.2.2.2.2 _ _ (by decide)

/-! ## Registry merge lemmas -/

theorem fetchModels_cons (r : List AIModelConfig) (c : AIModelConfig)
    (rest : List AIModelConfig) :
    fetchModels r (c :: rest) = fetchModels (mergeCustomModel r c) rest := rfl

theorem findIdx?_one {α : Type} (p : α → Bool) (l : List α) :
    l.findIdx? p 1 = (l.findIdx? p).map (fun k => k + 1) := by
  have h := @List.findIdx?_start_succ α l p 0
  simp only [Nat.zero_add] at h
  exact h

theorem mergeCustomModel_cons_pos {m c : AIModelConfig} (r : List AIModelConfig)
    (h : (m.id == c.id) = true) :
    mergeCustomModel (m :: r) c = c :: r := by
  simp [mergeCustomModel, List.findIdx?_cons, h]

theorem mergeCustomModel_cons_neg {m c : AIModelConfig} (r : List AIModelConfig)
    (h : (m.id == c.id) = false) :
    mergeCustomModel (m :: r) c = m :: mergeCustomModel r c := by
  simp only [mergeCustomModel, List.findIdx?_cons, h, Bool.false_eq_true, if_false,
    Nat.zero_add, findIdx?_one]
  cases hf : r.findIdx? (fun x => x.id == c.id) with
  | none => simp [hf]
  | some i => simp [hf]

/-- Replacing each id-matching entry in place is the identity when no
entry matches. -/
theorem map_override_id_of_no_match (r : List AIModelConfig) (c : AIModelConfig)
    (hall : ∀ x ∈ r, x.id ≠ c.id) :
    r.map (fun x => if x.id == c.id then c else x) = r := by
  induction r with
  | nil => rfl
  | cons y ys ih =>
    rw [List.map_cons,
      if_neg (by simp [hall y (List.mem_cons_self y ys)]),
      ih (fun x hx => hall x (List.mem_cons_of_mem y hx))]

/-- With pairwise-distinct remote ids, one merge step either rewrites the
matching entry in place or appends the custom entry. -/
theorem mergeCustomModel_eq_if (r : List AIModelConfig) (c : AIModelConfig)
    (hr : (r.map (fun m => m.id)).Nodup) :
    mergeCustomModel r c =
      if r.any (fun m => m.id == c.id) then
        r.map (fun m => if m.id == c.id then c else m)
      else r ++ [c] := by
  induction r with
  | nil => simp [mergeCustomModel]
  | cons m r ih =>
    rw [List.map_cons, List.nodup_cons] at hr
    obtain ⟨hm, hr'⟩ := hr
    by_cases h : (m.id == c.id) = true
    · rw [mergeCustomModel_cons_pos r h]
      have hc : m.id = c.id := eq_of_beq h
      have hall : ∀ x ∈ r, x.id ≠ c.id := by
        intro x hx he
        exact hm (by rw [hc, ← he]; exact List.mem_map_of_mem (fun m => m.id) hx)
      rw [List.any_cons, h, Bool.true_or, if_pos rfl, List.map_cons, if_pos h,
        map_override_id_of_no_match r c hall]
    · have hfalse : (m.id == c.id) = false := by
        cases hb : (m.id == c.id)
        · rfl
        · exact absurd hb h
      rw [mergeCustomModel_cons_neg r hfalse, ih hr']
      rw [List.any_cons, hfalse, Bool.false_or]
      cases ha : r.any (fun m => m.id == c.id) with
      | true =>
        rw [if_pos rfl, if_pos rfl, List.map_cons, if_neg h]
      | false =>
        rw [if_neg (by simp), if_neg (by simp), List.cons_append]

/-- The per-element ids are untouched by the in-place override map. -/
theorem override_map_ids (r : List AIModelConfig) (c : AIModelConfig) :
    (r.map (fun m => if m.id == c.id then c else m)).map (fun m => m.id) =
      r.map (fun m => m.id) := by
  rw [List.map_map]
  apply List.map_congr_left
  intro m _
  by_cases hb : (m.id == c.id) = true
  · simp [Function.comp, hb, (eq_of_beq hb).symm]
  · simp [Function.comp, hb]

theorem fetchModels_merge_general :
    ∀ (customModels remoteModels : List AIModelConfig),
      (remoteModels.map (fun m => m.id)).Nodup →
      (customModels.map (fun c => c.id)).Nodup →
      fetchModels remoteModels customModels =
        remoteModels.map (overrideBy customModels) ++
          freshCustoms customModels remoteModels
  | [], r => by
    intro _ _
    have hid : overrideBy ([] : List AIModelConfig) = fun m => m :=
      funext fun m => rfl
    simp [fetchModels, freshCustoms, hid]
  | c :: rest, r => by
    intro hr hc
    rw [List.map_cons, List.nodup_cons] at hc
    obtain ⟨hcid, hrest⟩ := hc
    have hfind : rest.find? (fun x => x.id == c.id) = none := by
      rw [List.find?_eq_none]
      intro x hx hbeq
      exact hcid (by rw [← eq_of_beq hbeq]; exact List.mem_map_of_mem (fun m => m.id) hx)
    rw [fetchModels_cons, mergeCustomModel_eq_if r c hr]
    cases ha : r.any (fun m => m.id == c.id) with
    | true =>
      rw [if_pos rfl]
      have hr2 : ((r.map (fun m => if m.id == c.id then c else m)).map
          (fun m => m.id)).Nodup := by
        rw [override_map_ids r c]; exact hr
      rw [fetchModels_merge_general rest _ hr2 hrest]
      congr 1
      · rw [List.map_map]
        apply List.map_congr_left
        intro m _
        show overrideBy rest (if m.id == c.id then c else m) = overrideBy (c :: rest) m
        by_cases hcm : m.id = c.id
        · have hfc : List.find? (fun x => x.id == m.id) (c :: rest) = some c := by
            rw [List.find?_cons]
            simp [hcm]
          rw [if_pos (by simp [hcm]), overrideBy, overrideBy, hfind, hfc]
          simp
        · have hfc : List.find? (fun x => x.id == m.id) (c :: rest) =
              List.find? (fun x => x.id == m.id) rest := by
            rw [List.find?_cons]
            have hne : (c.id == m.id) = false := by
              cases hb : (c.id == m.id)
              · rfl
              · exact absurd (eq_of_beq hb).symm hcm
            simp [hne]
          rw [if_neg (by simp [hcm]), overrideBy, overrideBy, hfc]
      · rw [freshCustoms, freshCustoms, List.filter_cons,
          if_neg (by simp [ha])]
        apply List.filter_congr
        intro x hx
        rw [List.any_map]
        have hp : ∀ m : AIModelConfig,
            ((fun m => m.id == x.id) ∘ (fun m => if m.id == c.id then c else m)) m =
              (fun m => m.id == x.id) m := by
          intro m
          by_cases hcm : m.id = c.id
          · simp only [Function.comp]
            rw [if_pos (by simp [hcm]), ← hcm]
          · simp only [Function.comp]
            rw [if_neg (by simp [hcm])]
        rw [show ((fun m => m.id == x.id) ∘ (fun m => if m.id == c.id then c else m)) =
          (fun m : AIModelConfig => m.id == x.id) from funext hp]
    | false =>
      rw [if_neg (by simp)]
      have hnotin : c.id ∉ r.map (fun m => m.id) := by
        intro hmem
        obtain ⟨m, hm, hid⟩ := List.mem_map.mp hmem
        have hpm : (fun m => m.id == c.id) m = true := by simp [hid]
        have hany : r.any (fun m => m.id == c.id) = true :=
          List.any_eq_true.mpr ⟨m, hm, hpm⟩
        rw [ha] at hany
        exact Bool.false_ne_true hany
      have hids2 : ((r ++ [c]).map (fun m => m.id)).Nodup := by
        rw [List.map_append]
        rw [List.nodup_append]
        refine ⟨hr, by simp, ?_⟩
        intro a hmem hmem2
        rw [List.map_cons, List.map_nil, List.mem_singleton] at hmem2
        exact hnotin (hmem2 ▸ hmem)
      rw [fetchModels_merge_general rest _ hids2 hrest]
      rw [List.map_append, List.map_cons, List.map_nil]
      have hoc : overrideBy rest c = c := by
        rw [overrideBy, hfind]
        rfl
      have hmapr : r.map (overrideBy rest) = r.map (overrideBy (c :: rest)) := by
        apply List.map_congr_left
        intro m hm
        have hne : (c.id == m.id) = false := by
          cases hb : (c.id == m.id)
          · rfl
          · exact absurd (eq_of_beq hb)
              (by intro hcm
                  exact hnotin (by rw [hcm]; exact List.mem_map_of_mem (fun m => m.id) hm))
        have hfc : List.find? (fun x => x.id == m.id) (c :: rest) =
            List.find? (fun x => x.id == m.id) rest := by
          rw [List.find?_cons]
          simp [hne]
        rw [overrideBy, overrideBy, hfc]
      have hfresh : freshCustoms rest (r ++ [c]) = freshCustoms rest r := by
        rw [freshCustoms, freshCustoms]
        apply List.filter_congr
        intro x hx
        rw [List.any_append]
        have hcx : ([c].any (fun m => m.id == x.id)) = false := by
          simp only [List.any_cons, List.any_nil, Bool.or_false]
          cases hb : (c.id == x.id)
          · rfl
          · exact absurd
              (by rw [eq_of_beq hb]; exact List.mem_map_of_mem (fun m => m.id) hx) hcid
        rw [hcx, Bool.or_false]
      have hfreshc : freshCustoms (c :: rest) r = c :: freshCustoms rest r := by
        rw [freshCustoms, List.filter_cons, if_pos (by simp [ha])]
        rfl
      rw [hoc, hmapr, hfresh, hfreshc]
      simp

/-- Claim C3: for every remote (or fallback) list and custom list with
pairwise-distinct ids, the `fetchModels` merge keeps every non-matching
remote entry unchanged at its position, wholly replaces each remote entry
matched by a custom id at its original position, and appends the custom
entries with fresh ids at the end in custom-list order. -/
theorem claim_C3_fetchModels_merge (remoteModels customModels : List AIModelConfig)
    (hr : (remoteModels.map (fun m => m.id)).Nodup)
    (hc : (customModels.map (fun c => c.id)).Nodup) :
    fetchModels remoteModels customModels =
      remoteModels.map (overrideBy customModels) ++
        freshCustoms customModels remoteModels :=
  fetchModels_merge_general customModels remoteModels hr hc

/-- Witness for C3 at the spec's own examples: overriding m2 keeps its
position and replaces its value, and a fresh m3 is appended. -/
theorem claim_C3_witness :
    (([sampleM1, sampleM2].map (fun m => m.id)).Nodup ∧
      ([sampleM2Override].map (fun c => c.id)).Nodup ∧
      fetchModels [sampleM1, sampleM2] [sampleM2Override] =
        [sampleM1, sampleM2Override]) ∧
    (([sampleM3].map (fun c => c.id)).Nodup ∧
      fetchModels [sampleM1, sampleM2] [sampleM3] =
        [sampleM1, sampleM2, sampleM3]) := by
  refine ⟨⟨by decide, by decide, ?_⟩, ⟨by decide, ?_⟩⟩
  · rw [claim_C3_fetchModels_merge [sampleM1, sampleM2] [sampleM2Override]
      (by decide) (by decide)]
    decide
  · rw [claim_C3_fetchModels_merge [sampleM1, sampleM2] [sampleM3]
      (by decide) (by decide)]
    decide

/-! ## Polling lemmas -/

theorem pollLoop_httpFail_step (env : Nat → AttemptOutcome) (statusPath : List Char)
    (i fuel t : Nat) (h : env i = .httpFail) :
    pollLoop env statusPath i (fuel + 1) t =
      pollLoop env statusPath (i + 1) fuel (t + POLLING_INTERVAL) := by
  simp only [pollLoop, h]

theorem pollLoop_failure_step (env : Nat → AttemptOutcome) (statusPath : List Char)
    (i fuel t : Nat) (body : JVal) (s : List Char) (henv : env i = .ok body)
    (hres : resolvePath body statusPath = some (.str s))
    (hs : lowerChars s = cs "failed" ∨ lowerChars s = cs "error") :
    pollLoop env statusPath i (fuel + 1) t =
      .genFailed s (i + 1) (t + POLLING_INTERVAL) := by
  rcases hs with hs | hs
  · have h1 : successStatuses.contains (lowerChars s) = false := by
      rw [hs]; decide
    have h2 : failureStatuses.contains (lowerChars s) = true := by
      rw [hs]; decide
    simp only [pollLoop, henv, hres, h1, h2, Bool.false_eq_true, if_false, if_true]
  · have h1 : successStatuses.contains (lowerChars s) = false := by
      rw [hs]; decide
    have h2 : failureStatuses.contains (lowerChars s) = true := by
      rw [hs]; decide
    simp only [pollLoop, henv, hres, h1, h2, Bool.false_eq_true, if_false, if_true]

theorem pollLoop_continue_step (env : Nat → AttemptOutcome) (statusPath : List Char)
    (i fuel t : Nat) (body : JVal) (s : List Char) (henv : env i = .ok body)
    (hres : resolvePath body statusPath = some (.str s))
    (hS : successStatuses.contains (lowerChars s) = false)
    (hF : failureStatuses.contains (lowerChars s) = false) :
    pollLoop env statusPath i (fuel + 1) t =
      pollLoop env statusPath (i + 1) fuel (t + POLLING_INTERVAL) := by
  simp only [pollLoop, henv, hres, hS, hF, Bool.false_eq_true, if_false]

theorem pollLoop_success_step (env : Nat → AttemptOutcome) (statusPath : List Char)
    (i fuel t : Nat) (body : JVal) (s : List Char) (henv : env i = .ok body)
    (hres : resolvePath body statusPath = some (.str s))
    (hS : successStatuses.contains (lowerChars s) = true) :
    pollLoop env statusPath i (fuel + 1) t =
      .success body (i + 1) (t + POLLING_INTERVAL) := by
  simp only [pollLoop, henv, hres, hS, if_true]

theorem pollLoop_attempts_le (env : Nat → AttemptOutcome) (statusPath : List Char) :
    ∀ (fuel i t : Nat), attemptsOf (pollLoop env statusPath i fuel t) ≤ i + fuel := by
  intro fuel
  induction fuel with
  | zero => intro i t; simp [pollLoop, attemptsOf]
  | succ fuel ih =>
    intro i t
    have hrec : attemptsOf (pollLoop env statusPath (i + 1) fuel (t + POLLING_INTERVAL))
        ≤ i + (fuel + 1) := by
      have := ih (i + 1) (t + POLLING_INTERVAL)
      omega
    cases henv : env i with
    | httpFail =>
      rw [pollLoop_httpFail_step env statusPath i fuel t henv]
      exact hrec
    | ok body =>
      cases hres : resolvePath body statusPath with
      | none =>
        simp only [pollLoop, henv, hres]
        exact hrec
      | some v =>
        cases v with
        | str s =>
          by_cases h1 : successStatuses.contains (lowerChars s) = true
          · simp only [pollLoop, henv, hres, h1, if_true, attemptsOf]
            omega
          · have h1f := eq_false_of_ne_true h1
            by_cases h2 : failureStatuses.contains (lowerChars s) = true
            · simp only [pollLoop, henv, hres, h1f, h2, Bool.false_eq_true,
                if_false, if_true, attemptsOf]
              omega
            · have h2f := eq_false_of_ne_true h2
              simp only [pollLoop, henv, hres, h1f, h2f, Bool.false_eq_true, if_false]
              exact hrec
        | num n => simp only [pollLoop, henv, hres, attemptsOf]; omega
        | bool b => simp only [pollLoop, henv, hres, attemptsOf]; omega
        | null =>
          simp only [pollLoop, henv, hres]
          exact hrec
        | arr l => simp only [pollLoop, henv, hres, attemptsOf]; omega
        | obj fs => simp only [pollLoop, henv, hres, attemptsOf]; omega

theorem pollLoop_timeout (env : Nat → AttemptOutcome) (statusPath : List Char) :
    ∀ (fuel i t : Nat),
      (∀ j, i ≤ j → j < i + fuel → attemptContinues statusPath (env j) = true) →
      pollLoop env statusPath i fuel t =
        .timeout (i + fuel) (t + fuel * POLLING_INTERVAL) := by
  intro fuel
  induction fuel with
  | zero => intro i t _; simp [pollLoop]
  | succ fuel ih =>
    intro i t hcont
    have hi : attemptContinues statusPath (env i) = true :=
      hcont i (Nat.le_refl i) (by omega)
    have hrec : pollLoop env statusPath (i + 1) fuel (t + POLLING_INTERVAL) =
        .timeout ((i + 1) + fuel) ((t + POLLING_INTERVAL) + fuel * POLLING_INTERVAL) :=
      ih (i + 1) (t + POLLING_INTERVAL) (fun j hj1 hj2 => hcont j (by omega) (by omega))
    have hshape : PollOutcome.timeout ((i + 1) + fuel)
        ((t + POLLING_INTERVAL) + fuel * POLLING_INTERVAL) =
        .timeout (i + (fuel + 1)) (t + (fuel + 1) * POLLING_INTERVAL) := by
      rw [Nat.succ_mul]
      congr 1
      · omega
      · omega
    cases henv : env i with
    | httpFail =>
      rw [pollLoop_httpFail_step env statusPath i fuel t henv, hrec, hshape]
    | ok body =>
      simp only [attemptContinues, henv] at hi
      cases hres : resolvePath body statusPath with
      | none =>
        simp only [pollLoop, henv, hres]
        rw [hrec, hshape]
      | some v =>
        cases v with
        | str s =>
          simp only [hres] at hi
          rw [Bool.and_eq_true, Bool.not_eq_true', Bool.not_eq_true'] at hi
          simp only [pollLoop, henv, hres, hi.1, hi.2, Bool.false_eq_true, if_false]
          rw [hrec, hshape]
        | num n => simp only [hres, Bool.false_eq_true] at hi
        | bool b => simp only [hres, Bool.false_eq_true] at hi
        | null =>
          simp only [pollLoop, henv, hres]
          rw [hrec, hshape]
        | arr l => simp only [hres, Bool.false_eq_true] at hi
        | obj fs => simp only [hres, Bool.false_eq_true] at hi

/-- Claim C4: in the polling loop, a non-success HTTP status response
raises no error and consumes exactly one attempt (and one interval sleep)
before the loop continues; a parseable response whose extracted status is
case-insensitively failed or error terminates the call at once with a
generation failure carrying the raw status value — in particular on the
very first attempt, without exhausting the budget. -/
theorem claim_C4_poll_transient_and_failure :
    (∀ (env : Nat → AttemptOutcome) (statusPath : List Char) (i fuel t : Nat),
        env i = .httpFail →
        pollLoop env statusPath i (fuel + 1) t =
          pollLoop env statusPath (i + 1) fuel (t + POLLING_INTERVAL)) ∧
    (∀ (env : Nat → AttemptOutcome) (statusPath : List Char) (i fuel t : Nat)
        (body : JVal) (s : List Char),
        env i = .ok body →
        resolvePath body statusPath = some (.str s) →
        (lowerChars s = cs "failed" ∨ lowerChars s = cs "error") →
        pollLoop env statusPath i (fuel + 1) t =
          .genFailed s (i + 1) (t + POLLING_INTERVAL)) ∧
    (∀ (env : Nat → AttemptOutcome) (statusPath : List Char) (body : JVal)
        (s : List Char),
        env 0 = .ok body →
        resolvePath body statusPath = some (.str s) →
        (lowerChars s = cs "failed" ∨ lowerChars s = cs "error") →
        pollPhase env statusPath = .genFailed s 1 POLLING_INTERVAL) := by
  refine ⟨pollLoop_httpFail_step, pollLoop_failure_step, ?_⟩
  intro env statusPath body s henv hres hs
  have h := pollLoop_failure_step env statusPath 0 59 0 body s henv hres hs
  rw [pollPhase, show MAX_ATTEMPTS = 59 + 1 from by decide, h, Nat.zero_add,
    Nat.zero_add]

/-- Witness for C4: a transient failure at the first attempt continues the
loop, and a first-poll failed status fails immediately after one attempt. -/
theorem claim_C4_witness :
    ((fun _ : Nat => AttemptOutcome.httpFail) 0 = AttemptOutcome.httpFail ∧
      pollLoop (fun _ => .httpFail) (cs "status") 0 (0 + 1) 0 =
        pollLoop (fun _ => .httpFail) (cs "status") 1 0 POLLING_INTERVAL) ∧
    (envAllFailed 0 = .ok (statusBody (cs "failed")) ∧
      resolvePath (statusBody (cs "failed")) (cs "status") =
        some (.str (cs "failed")) ∧
      pollPhase envAllFailed (cs "status") =
        .genFailed (cs "failed") 1 POLLING_INTERVAL) := by
  refine ⟨⟨rfl, ?_⟩, ⟨rfl, by decide, ?_⟩⟩
  · have h := claim_C4_poll_transient_and_failure.1 (fun _ => .httpFail)
      (cs "status") 0 0 0 rfl
    rw [h, Nat.zero_add, Nat.zero_add]
  · exact claim_C4_poll_transient_and_failure.2.2 envAllFailed (cs "status")
      (statusBody (cs "failed")) (cs "failed") rfl (by decide) (Or.inl (by decide))

/-- Counterexample to C5: with statuses pending, pending, succeeded the
loop does return the third response, but only after three interval sleeps
(6000 ms) — the source sleeps before every status request — not after the
two waits the claim states. -/
theorem claim_C5_counterexample :
    pollPhase envPendingThenSucceeded (cs "status") =
      .success (statusBody (cs "succeeded")) 3 6000 ∧
    pollPhase envPendingThenSucceeded (cs "status") ≠
      .success (statusBody (cs "succeeded")) 3 4000 := by
  exact ⟨by decide, by decide⟩

/-- Claim C5 amended: when three successive polls return pending, pending
and succeeded, the call returns the third poll's response, and exactly
three 2000 ms waits elapse before that third response is received (one
sleep precedes every status request). -/
theorem claim_C5_amended (env : Nat → AttemptOutcome) (b0 b1 b2 : JVal)
    (h0 : env 0 = .ok b0) (h1 : env 1 = .ok b1) (h2 : env 2 = .ok b2)
    (r0 : resolvePath b0 (cs "status") = some (.str (cs "pending")))
    (r1 : resolvePath b1 (cs "status") = some (.str (cs "pending")))
    (r2 : resolvePath b2 (cs "status") = some (.str (cs "succeeded"))) :
    pollPhase env (cs "status") = .success b2 3 (3 * POLLING_INTERVAL) := by
  have hpS : successStatuses.contains (lowerChars (cs "pending")) = false := by decide
  have hpF : failureStatuses.contains (lowerChars (cs "pending")) = false := by decide
  have hsS : successStatuses.contains (lowerChars (cs "succeeded")) = true := by decide
  rw [pollPhase, show MAX_ATTEMPTS = 57 + 1 + 1 + 1 from by decide,
    pollLoop_continue_step env (cs "status") 0 (57 + 1 + 1) 0 b0 (cs "pending")
      h0 r0 hpS hpF,
    pollLoop_continue_step env (cs "status") 1 (57 + 1) (0 + POLLING_INTERVAL) b1
      (cs "pending") h1 r1 hpS hpF,
    pollLoop_success_step env (cs "status") 2 57
      (0 + POLLING_INTERVAL + POLLING_INTERVAL) b2 (cs "succeeded") h2 r2 hsS]
  congr 1

/-- Witness for C5 amended at the concrete pending, pending, succeeded
environment. -/
theorem claim_C5_amended_witness :
    envPendingThenSucceeded 0 = .ok (statusBody (cs "pending")) ∧
    envPendingThenSucceeded 2 = .ok (statusBody (cs "succeeded")) ∧
    pollPhase envPendingThenSucceeded (cs "status") =
      .success (statusBody (cs "succeeded")) 3 (3 * POLLING_INTERVAL) := by
  refine ⟨rfl, rfl, ?_⟩
  exact claim_C5_amended envPendingThenSucceeded (statusBody (cs "pending"))
    (statusBody (cs "pending")) (statusBody (cs "succeeded"))
    rfl rfl rfl (by decide) (by decide) (by decide)

/-- Counterexample to C6: a run whose first poll reports the failed status
yields no success-terminal status on any attempt, yet the loop stops after
one attempt with a generation failure instead of after 60 attempts with a
timeout. -/
theorem claim_C6_counterexample :
    pollPhase envAllFailed (cs "status") = .genFailed (cs "failed") 1 2000 ∧
    pollPhase envAllFailed (cs "status") ≠
      .timeout MAX_ATTEMPTS (MAX_ATTEMPTS * POLLING_INTERVAL) := by
  exact ⟨by decide, by decide⟩

/-- Claim C6 amended: the polling loop makes at most 60 attempts, and for
every run in which no attempt yields a terminal status — none in the
success set, none in the failure set, and no truthy non-string status
(whose JS lowercase would throw); an undefined or null status keeps the
loop polling — the loop ends after the 60th attempt with the timeout
failure, 120000 ms of interval sleeps having elapsed. -/
theorem claim_C6_amended :
    (∀ (env : Nat → AttemptOutcome) (statusPath : List Char),
        attemptsOf (pollPhase env statusPath) ≤ MAX_ATTEMPTS) ∧
    (∀ (env : Nat → AttemptOutcome) (statusPath : List Char),
        (∀ j, j < MAX_ATTEMPTS → attemptContinues statusPath (env j) = true) →
        pollPhase env statusPath =
          .timeout MAX_ATTEMPTS (MAX_ATTEMPTS * POLLING_INTERVAL)) := by
  constructor
  · intro env statusPath
    have h := pollLoop_attempts_le env statusPath MAX_ATTEMPTS 0 0
    rw [pollPhase]
    omega
  · intro env statusPath hcont
    have h := pollLoop_timeout env statusPath MAX_ATTEMPTS 0 0
      (fun j hj1 hj2 => hcont j (by omega))
    rw [pollPhase, h, Nat.zero_add, Nat.zero_add]

/-- Witness for C6 amended: a run whose every poll carries a null status
field keeps polling — the optional-chaining lowercase short-circuits — and
times out after the 60 attempts, as does a run of transient HTTP failures. -/
theorem claim_C6_amended_witness :
    ((∀ j, j < MAX_ATTEMPTS →
        attemptContinues (cs "status") (envNullStatus j) = true) ∧
      pollPhase envNullStatus (cs "status") =
        .timeout MAX_ATTEMPTS (MAX_ATTEMPTS * POLLING_INTERVAL)) ∧
    ((∀ j, j < MAX_ATTEMPTS →
        attemptContinues (cs "status") ((fun _ => AttemptOutcome.httpFail) j) = true) ∧
      pollPhase (fun _ => AttemptOutcome.httpFail) (cs "status") =
        .timeout MAX_ATTEMPTS (MAX_ATTEMPTS * POLLING_INTERVAL)) := by
  refine ⟨⟨fun j _ => rfl, ?_⟩, ⟨fun j _ => rfl, ?_⟩⟩
  · exact claim_C6_amended.2 envNullStatus (cs "status") (fun j _ => rfl)
  · exact claim_C6_amended.2 (fun _ => .httpFail) (cs "status") (fun j _ => rfl)

/-! ## Header substitution lemmas -/

theorem substDollar_no_dollar :
    ∀ (matched before after rep : List Char),
      '\x24' ∉ rep → substDollar matched before after rep = rep
  | _, _, _, [] => fun _ => rfl
  | m, b, a, c :: rest => fun h => by
    have hc : ¬ c = '\x24' := fun he => h (he ▸ List.mem_cons_self c rest)
    have hrest : '\x24' ∉ rest := fun hm => h (List.mem_cons_of_mem c hm)
    rw [substDollar, if_neg hc, substDollar_no_dollar m b a rest hrest]

theorem replaceFirstGo_no_occurrence (pat rep : List Char) (hne : pat ≠ []) :
    ∀ (s seen : List Char), ¬ (pat <:+: s) →
      replaceFirstGo pat rep seen s = seen.reverse ++ s
  | [], seen => fun _ => by
    rw [replaceFirstGo,
      if_neg (fun hIsE => hne (List.isEmpty_iff.mp hIsE))]
    simp
  | c :: rest, seen => fun hni => by
    have hp : pat.isPrefixOf (c :: rest) ≠ true := by
      intro hb
      obtain ⟨t, ht⟩ := (isPrefixOf_true_iff pat (c :: rest)).mp hb
      exact hni ⟨[], t, by simp [ht]⟩
    rw [replaceFirstGo, if_neg hp,
      replaceFirstGo_no_occurrence pat rep hne rest (c :: seen)
        (fun hinf => hni (List.infix_cons hinf))]
    simp

theorem replaceFirstGo_match (pat rep : List Char) (p0 : Char) (pr : List Char)
    (hpat : pat = p0 :: pr) :
    ∀ (pre : List Char), p0 ∉ pre → ∀ (seen post : List Char),
      replaceFirstGo pat rep seen (pre ++ pat ++ post) =
        seen.reverse ++ pre ++
          substDollar pat (seen.reverse ++ pre) post rep ++ post
  | [], _ => fun seen post => by
    subst hpat
    have hcons : ([] : List Char) ++ (p0 :: pr) ++ post = p0 :: (pr ++ post) := by
      simp
    have hpre : (p0 :: pr).isPrefixOf (p0 :: (pr ++ post)) = true := by
      apply (isPrefixOf_true_iff _ _).mpr
      exact ⟨post, by simp⟩
    have hdrop : (p0 :: (pr ++ post)).drop (p0 :: pr).length = post := by
      rw [List.length_cons, List.drop_succ_cons, List.drop_left]
    rw [hcons, replaceFirstGo, if_pos hpre, hdrop]
    simp
  | a :: pre', hnp => fun seen post => by
    have ha : ¬ p0 = a := fun he => hnp (he ▸ List.mem_cons_self a pre')
    have hnp' : p0 ∉ pre' := fun hm => hnp (List.mem_cons_of_mem a hm)
    have hs : (a :: pre') ++ pat ++ post = a :: (pre' ++ pat ++ post) := by simp
    have hpf : pat.isPrefixOf (a :: (pre' ++ pat ++ post)) ≠ true := by
      rw [hpat, List.isPrefixOf_cons₂]
      intro hb
      rw [Bool.and_eq_true] at hb
      exact ha (eq_of_beq hb.1)
    rw [hs, replaceFirstGo, if_neg hpf,
      replaceFirstGo_match pat rep p0 pr hpat pre' hnp' (a :: seen) post]
    simp

/-- The first key-token occurrence is replaced by the credential (the
credential assumed free of the JS replacement-pattern dollar). -/
theorem replaceFirst_keyToken_first (apiKeyStr pre post : List Char)
    (hpre : '\x7b' ∉ pre) (hnd : '\x24' ∉ apiKeyStr) :
    replaceFirst (pre ++ keyToken ++ post) keyToken apiKeyStr =
      pre ++ apiKeyStr ++ post := by
  rw [replaceFirst,
    replaceFirstGo_match keyToken apiKeyStr '\x7b' (cs "\x7bkey\x7d\x7d")
      (by decide) pre hpre [] post,
    substDollar_no_dollar _ _ _ _ hnd]
  simp

/-- A value containing no key token is left unchanged. -/
theorem replaceFirst_no_keyToken (v rep : List Char) (h : ¬ keyToken <:+: v) :
    replaceFirst v keyToken rep = v := by
  rw [replaceFirst,
    replaceFirstGo_no_occurrence keyToken rep (by decide) v [] h]
  simp

/-- Counterexample to C7: with the credential A stored, the header value
made of two key tokens joined by a dash resolves to the credential
followed by a still-unexpanded second token — the source's string-pattern
replace substitutes only the first occurrence, not every occurrence. -/
theorem claim_C7_counterexample :
    resolveHeaders
        [(cs "Authorization", cs "\x7b\x7bkey\x7d\x7d-\x7b\x7bkey\x7d\x7d")]
        (some (cs "A")) =
      [(cs "Authorization", cs "A-\x7b\x7bkey\x7d\x7d")] ∧
    resolveHeaders
        [(cs "Authorization", cs "\x7b\x7bkey\x7d\x7d-\x7b\x7bkey\x7d\x7d")]
        (some (cs "A")) ≠
      [(cs "Authorization", cs "A-A")] := by
  exact ⟨by decide, by decide⟩

/-- Claim C7 amended: header resolution maps every header entry's value
through the key-token substitution; in each value only the first
occurrence of the key token is replaced by the stored credential (the
empty string when none is stored, with no error raised) and the remainder
of the value — including any further key token — is kept verbatim; a value
without the key token, in particular one holding any other placeholder
token, is left entirely unchanged. -/
theorem claim_C7_amended :
    (∀ (headers : List (List Char × List Char)) (apiKey : Option (List Char)),
        resolveHeaders headers apiKey =
          headers.map (fun kv => (kv.1, resolveHeaderValue kv.2 apiKey))) ∧
    (∀ (value : List Char) (apiKey : Option (List Char)) (pre post : List Char),
        '\x7b' ∉ pre → '\x24' ∉ apiKey.getD [] →
        value = pre ++ keyToken ++ post →
        resolveHeaderValue value apiKey = pre ++ apiKey.getD [] ++ post) ∧
    (∀ (value : List Char) (apiKey : Option (List Char)),
        ¬ (keyToken <:+: value) →
        resolveHeaderValue value apiKey = value) := by
  refine ⟨fun _ _ => rfl, ?_, ?_⟩
  · intro value apiKey pre post hpre hnd hval
    rw [hval, resolveHeaderValue,
      replaceFirst_keyToken_first (apiKey.getD []) pre post hpre hnd]
  · intro value apiKey h
    rw [resolveHeaderValue, replaceFirst_no_keyToken value (apiKey.getD []) h]

/-- Witness for C7 amended: a bearer header with a trailing second token
keeps the second token, a missing credential substitutes the empty string,
and a foreign token is untouched. -/
theorem claim_C7_amended_witness :
    resolveHeaderValue (cs "Bearer \x7b\x7bkey\x7d\x7d x \x7b\x7bkey\x7d\x7d")
        (some (cs "SECRET")) =
      cs "Bearer SECRET x \x7b\x7bkey\x7d\x7d" ∧
    resolveHeaderValue (cs "Bearer \x7b\x7bkey\x7d\x7d") none = cs "Bearer " ∧
    resolveHeaderValue (cs "\x7b\x7bother\x7d\x7d") (some (cs "SECRET")) =
      cs "\x7b\x7bother\x7d\x7d" := by
  refine ⟨?_, ?_, ?_⟩
  · have h := claim_C7_amended.2.1
      (cs "Bearer \x7b\x7bkey\x7d\x7d x \x7b\x7bkey\x7d\x7d") (some (cs "SECRET"))
      (cs "Bearer ") (cs " x \x7b\x7bkey\x7d\x7d") (by decide) (by decide) (by decide)
    rw [h]
    decide
  · have h := claim_C7_amended.2.1 (cs "Bearer \x7b\x7bkey\x7d\x7d") none
      (cs "Bearer ") [] (by decide) (by decide) (by decide)
    rw [h]
    decide
  · exact claim_C7_amended.2.2 (cs "\x7b\x7bother\x7d\x7d") (some (cs "SECRET"))
      (by decide)

/-! ## Text and visual generation claims -/

/-- Claim C8: on the generic (non-google_native) path, `generateText`
issues the generic request with the prompt as sole caller input, extracts
the result at the path configured under text in the generate endpoint's
output mapping (default path text); a non-string extracted value fails
with the extraction error; every error this path raises is wrapped in a
message carrying the model's display name; and in the spec's end-to-end
scenario the extracted value is the string Hello. -/
theorem claim_C8_generateText_spec :
    (∀ (config : AIModelConfig) (prompt : List Char) (apiKey : Option (List Char))
        (net : GenRequest → GenHttpOutcome) (pollEnv : Nat → AttemptOutcome)
        (raw : JVal) (s : List Char),
        config.provider ≠ cs "google_native" →
        executeGenericRequest config [(cs "prompt", .str prompt)] apiKey net pollEnv =
          .ok raw →
        resolvePath raw (textPathOf config) = some (.str s) →
        generateText config prompt apiKey net pollEnv = some (.ok s)) ∧
    (∀ (config : AIModelConfig) (prompt : List Char) (apiKey : Option (List Char))
        (net : GenRequest → GenHttpOutcome) (pollEnv : Nat → AttemptOutcome)
        (raw : JVal),
        config.provider ≠ cs "google_native" →
        executeGenericRequest config [(cs "prompt", .str prompt)] apiKey net pollEnv =
          .ok raw →
        (∀ s, resolvePath raw (textPathOf config) ≠ some (.str s)) →
        generateText config prompt apiKey net pollEnv =
          some (.error (wrapModelError config.name
            (cs "Could not extract text from provider response.")))) ∧
    (∀ (config : AIModelConfig) (prompt : List Char) (apiKey : Option (List Char))
        (net : GenRequest → GenHttpOutcome) (pollEnv : Nat → AttemptOutcome)
        (m : List Char),
        config.provider ≠ cs "google_native" →
        generateText config prompt apiKey net pollEnv = some (.error m) →
        ∃ m0, m = wrapModelError config.name m0) ∧
    generateText mockTextModel (cs "Hi") none
        (fun _ => .resp true 200 [] mockTextResponse) (fun _ => .httpFail) =
      some (.ok (cs "Hello")) := by
  refine ⟨?_, ?_, ?_, by decide⟩
  · intro config prompt apiKey net pollEnv raw s hp hexec hres
    have hb : (config.provider == cs "google_native") = false :=
      beq_eq_false_iff_ne.mpr hp
    simp only [generateText, hb, Bool.false_eq_true, if_false, hexec, hres]
  · intro config prompt apiKey net pollEnv raw hp hexec hres
    have hb : (config.provider == cs "google_native") = false :=
      beq_eq_false_iff_ne.mpr hp
    cases hr : resolvePath raw (textPathOf config) with
    | none => simp only [generateText, hb, Bool.false_eq_true, if_false, hexec, hr]
    | some v =>
      cases v with
      | str s => exact absurd hr (hres s)
      | num n => simp only [generateText, hb, Bool.false_eq_true, if_false, hexec, hr]
      | bool b => simp only [generateText, hb, Bool.false_eq_true, if_false, hexec, hr]
      | null => simp only [generateText, hb, Bool.false_eq_true, if_false, hexec, hr]
      | arr l => simp only [generateText, hb, Bool.false_eq_true, if_false, hexec, hr]
      | obj fs => simp only [generateText, hb, Bool.false_eq_true, if_false, hexec, hr]
  · intro config prompt apiKey net pollEnv m hp hm
    have hb : (config.provider == cs "google_native") = false :=
      beq_eq_false_iff_ne.mpr hp
    simp only [generateText, hb, Bool.false_eq_true, if_false] at hm
    cases hexec : executeGenericRequest config [(cs "prompt", .str prompt)]
        apiKey net pollEnv with
    | error m0 =>
      simp only [hexec, Option.some.injEq, Except.error.injEq] at hm
      exact ⟨m0, hm.symm⟩
    | ok raw =>
      cases hr : resolvePath raw (textPathOf config) with
      | none =>
        simp only [hexec, hr, Option.some.injEq, Except.error.injEq] at hm
        exact ⟨cs "Could not extract text from provider response.", hm.symm⟩
      | some v =>
        cases v with
        | str s => simp [hexec, hr] at hm
        | num n =>
          simp only [hexec, hr, Option.some.injEq, Except.error.injEq] at hm
          exact ⟨cs "Could not extract text from provider response.", hm.symm⟩
        | bool b =>
          simp only [hexec, hr, Option.some.injEq, Except.error.injEq] at hm
          exact ⟨cs "Could not extract text from provider response.", hm.symm⟩
        | null =>
          simp only [hexec, hr, Option.some.injEq, Except.error.injEq] at hm
          exact ⟨cs "Could not extract text from provider response.", hm.symm⟩
        | arr l =>
          simp only [hexec, hr, Option.some.injEq, Except.error.injEq] at hm
          exact ⟨cs "Could not extract text from provider response.", hm.symm⟩
        | obj fs =>
          simp only [hexec, hr, Option.some.injEq, Except.error.injEq] at hm
          exact ⟨cs "Could not extract text from provider response.", hm.symm⟩

/-- Witness for C8 at the end-to-end scenario provider. -/
theorem claim_C8_witness :
    mockTextModel.provider ≠ cs "google_native" ∧
    executeGenericRequest mockTextModel [(cs "prompt", .str (cs "Hi"))] none
        (fun _ => .resp true 200 [] mockTextResponse) (fun _ => .httpFail) =
      .ok mockTextResponse ∧
    generateText mockTextModel (cs "Hi") none
        (fun _ => .resp true 200 [] mockTextResponse) (fun _ => .httpFail) =
      some (.ok (cs "Hello")) := by
  refine ⟨by decide, by decide, ?_⟩
  exact claim_C8_generateText_spec.1 mockTextModel (cs "Hi") none
    (fun _ => .resp true 200 [] mockTextResponse) (fun _ => .httpFail)
    mockTextResponse (cs "Hello") (by decide) (by decide) (by decide)

/-- Counterexample to C9: the extracted value httpZ is not an http(s) URL,
so the claim's case analysis demands it be passed through unchanged, but
the source's prefix test sends it to the fetch-and-reencode branch: with a
fetch returning an empty byte blob the result is the empty base64 string,
not httpZ. -/
theorem claim_C9_counterexample :
    normalizeVisualValue (fun _ => some []) (some (.str (cs "httpZ"))) =
      .ok (some []) ∧
    normalizeVisualValue (fun _ => some []) (some (.str (cs "httpZ"))) ≠
      .ok (some (cs "httpZ")) := by
  exact ⟨by decide, by decide⟩

/-- Claim C9 amended: the extracted visual value is normalized by prefix
tests — a string starting with http is fetched and its bytes re-encoded as
base64; a string starting with data:image yields the piece of the JS
comma-split after the first comma (the payload of a well-formed data URI);
any other non-empty string is passed through unchanged — and a missing or
empty extracted value makes the call fail with the extraction error,
which `generateVisual` wraps with the model's display name. -/
theorem claim_C9_amended :
    (∀ (imgFetch : List Char → Option (List UInt8)) (s : List Char)
        (bytes : List UInt8),
        (cs "http").isPrefixOf s = true → imgFetch s = some bytes →
        normalizeVisualValue imgFetch (some (.str s)) =
          .ok (some (base64Encode bytes))) ∧
    (∀ (imgFetch : List Char → Option (List UInt8)) (s : List Char),
        (cs "data:image").isPrefixOf s = true →
        normalizeVisualValue imgFetch (some (.str s)) =
          .ok ((s.splitOn ',').get? 1)) ∧
    (∀ (imgFetch : List Char → Option (List UInt8)),
        normalizeVisualValue imgFetch
            (some (.str (cs "data:image/png;base64,AAAA"))) =
          .ok (some (cs "AAAA"))) ∧
    (∀ (imgFetch : List Char → Option (List UInt8)) (s : List Char),
        s ≠ [] → (cs "http").isPrefixOf s = false →
        (cs "data:image").isPrefixOf s = false →
        normalizeVisualValue imgFetch (some (.str s)) = .ok (some s)) ∧
    (∀ (imgFetch : List Char → Option (List UInt8)),
        normalizeVisualValue imgFetch none = .error extractImageMsg ∧
        normalizeVisualValue imgFetch (some (.str [])) = .error extractImageMsg) ∧
    (∀ (config : AIModelConfig) (prompt : List Char) (apiKey : Option (List Char))
        (net : GenRequest → GenHttpOutcome) (pollEnv : Nat → AttemptOutcome)
        (imgFetch : List Char → Option (List UInt8)) (raw : JVal),
        config.provider ≠ cs "google_native" →
        executeGenericRequest config [(cs "prompt", .str prompt)] apiKey net pollEnv =
          .ok raw →
        resolvePath raw (imagePathOf config) = none →
        generateVisual config prompt apiKey net pollEnv imgFetch =
          some (.error (wrapModelError config.name extractImageMsg))) := by
  refine ⟨?_, ?_, fun imgFetch => rfl, ?_, fun imgFetch => ⟨rfl, rfl⟩, ?_⟩
  · intro imgFetch s bytes hp hf
    obtain ⟨t, ht⟩ := (isPrefixOf_true_iff _ _).mp hp
    have hfalsy : jsFalsyOpt (some (.str s)) = false := by rw [← ht]; rfl
    simp only [normalizeVisualValue, hfalsy, Bool.false_eq_true, if_false, hp,
      if_true, hf]
  · intro imgFetch s hp
    obtain ⟨t, ht⟩ := (isPrefixOf_true_iff _ _).mp hp
    have hfalsy : jsFalsyOpt (some (.str s)) = false := by rw [← ht]; rfl
    have hhttp : (cs "http").isPrefixOf s = false := by rw [← ht]; rfl
    simp only [normalizeVisualValue, hfalsy, hhttp, hp, Bool.false_eq_true,
      if_false, if_true]
  · intro imgFetch s hne hh hd
    have hfalsy : jsFalsyOpt (some (.str s)) = false := by
      cases s with
      | nil => exact absurd rfl hne
      | cons c rest => rfl
    simp only [normalizeVisualValue, hfalsy, hh, hd, Bool.false_eq_true, if_false]
  · intro config prompt apiKey net pollEnv imgFetch raw hp hexec hres
    have hb : (config.provider == cs "google_native") = false :=
      beq_eq_false_iff_ne.mpr hp
    simp only [generateVisual, hb, Bool.false_eq_true, if_false, hexec, hres,
      normalizeVisualValue, jsFalsyOpt, if_true]

/-- Witness for C9 amended: a fetched URL re-encodes to base64, the data
URI loses its header, a bare base64 string passes through, and an absent
value is the extraction error. -/
theorem claim_C9_amended_witness :
    normalizeVisualValue (fun _ => some [77, 97, 110])
        (some (.str (cs "https://x/y.png"))) = .ok (some (cs "TWFu")) ∧
    normalizeVisualValue (fun _ => none)
        (some (.str (cs "data:image/png;base64,AAAA"))) = .ok (some (cs "AAAA")) ∧
    normalizeVisualValue (fun _ => none) (some (.str (cs "AAAA"))) =
      .ok (some (cs "AAAA")) ∧
    normalizeVisualValue (fun _ => none) none = .error extractImageMsg := by
  refine ⟨?_, ?_, ?_, (claim_C9_amended.2.2.2.2.1 (fun _ => none)).1⟩
  · have h := claim_C9_amended.1 (fun _ => some [77, 97, 110])
      (cs "https://x/y.png") [77, 97, 110] (by decide) rfl
    rw [h]
    decide
  · have h := claim_C9_amended.2.1 (fun _ => none)
      (cs "data:image/png;base64,AAAA") (by decide)
    rw [h]
    decide
  · exact claim_C9_amended.2.2.2.1 (fun _ => none) (cs "AAAA") (by decide)
      (by decide) (by decide)

/-- Claim C10: at the public interface, a generic visual provider whose
extracted image value is the comma-less string data:image/png;base64 makes
`generateVisual` resolve with no error to JS undefined (modelled `none`)
instead of a base64 string. -/
theorem claim_C10_dataUri_without_comma :
    generateVisual mockVisualModel (cs "p") none
        (fun _ => .resp true 200 []
          (.obj [(cs "image_url", .str (cs "data:image/png;base64"))]))
        (fun _ => .httpFail) (fun _ => none) =
      some (.ok none) := by
  decide

end Showrunner
